import Mathlib

/-!
Verification of the core of `rust-osauth` (session layer for a multi-service
HTTP API platform) against its natural-language specification.

The development shallowly embeds the relevant Rust code:

* `src/cache.rs` — `ValueCache` / `MapCache` (a `HashMap` behind a lock is
  modelled as an association list with first-match lookup and in-place
  replacing insert);
* `src/session.rs` — `Session`, in particular `extract_service_info`,
  `pick_api_version`, `supports_api_version`, `refresh`, `reset_cache`,
  `set_auth_type`, `set_endpoint_interface`.  The asynchronous collaborators
  (the `AuthType` capability and `ServiceInfo::fetch`) are passed in as an
  explicit environment of deterministic functions; the shared `Arc` handles
  to caches are modelled as indices into an explicit heap (`World`); calls
  to the collaborators are recorded in an explicit event trace;
* `src/sync.rs` — `SyncStream` (`io::Read` impl) and `SyncBody`
  (`Stream` impl), with `io::Cursor` modelled explicitly and the blocking
  pull from the chunk stream modelled as consuming a list of chunks.

Types that the embedded code uses but whose definitions live outside the
four embedded files (`ApiVersion`, `ServiceInfo` and its
`supports_api_version`) are modelled from the specification and marked as
such in their doc comments.
-/

/-- Modelled from the spec: `ApiVersion` (defined outside the four embedded
source files) is an ordered pair (major, minor) with total ordering by
(major, minor); a microversion identifier. -/
structure ApiVersion where
  major : Nat
  minor : Nat
deriving DecidableEq, Repr

/-- Lexicographic order on `ApiVersion`, as a boolean. -/
def ApiVersion.le (a b : ApiVersion) : Bool :=
  decide (a.major < b.major ∨ (a.major = b.major ∧ a.minor ≤ b.minor))

/-- Modelled from the spec: `ServiceInfo` (defined outside the four embedded
source files) is a per-service discovery result — root URL, optional major
version, optional (minimum, current) microversion pair.  The field names are
those used by the embedded code in `session.rs`. -/
structure ServiceInfo where
  root_url : String
  major_version : Option ApiVersion
  minimum_version : Option ApiVersion
  current_version : Option ApiVersion
deriving DecidableEq, Repr

/-- Modelled from the spec: support of a microversion by a service — "the
candidate falls within the service's published [minimum, current]
microversion range, or trivially succeeds if the service declares no
discoverable microversion range".  A range is discoverable exactly when both
ends are present (this matches `Session::get_api_versions` in `session.rs`,
which reports a range only when both `minimum_version` and
`current_version` are set). -/
def ServiceInfo.supports_api_version (info : ServiceInfo) (v : ApiVersion) : Bool :=
  match info.minimum_version, info.current_version with
  | some lo, some hi => ApiVersion.le lo v && ApiVersion.le v hi
  | _, _ => true

/-! ## HashMap model

`MapCache` wraps `std::collections::HashMap`.  We model the map as an
association list with unique keys kept by construction: lookup takes the
first match and insert replaces in place. -/

/-- Model of `HashMap::get`. -/
def hmGet [DecidableEq K] : List (K × V) → K → Option V
  | [], _ => none
  | (k', v) :: rest, k => if k' = k then some v else hmGet rest k

/-- Model of `HashMap::contains_key`. -/
def hmContainsKey [DecidableEq K] : List (K × V) → K → Bool
  | [], _ => false
  | (k', _) :: rest, k => if k' = k then true else hmContainsKey rest k

/-- Model of `HashMap::insert`: replaces the value bound to an existing key,
otherwise adds a fresh binding. -/
def hmInsert [DecidableEq K] : List (K × V) → K → V → List (K × V)
  | [], k, v => [(k, v)]
  | (k', v') :: rest, k, v =>
    if k' = k then (k, v) :: rest else (k', v') :: hmInsert rest k v

/-! ## Cache primitives (`src/cache.rs`) -/

/-- `ValueCache<T>`: zero or one cached value (`RwLock<Option<T>>`). -/
abbrev ValueCache (T : Type) := Option T

/-- `ValueCache::validate`: true iff a value is present and passes the check. -/
def ValueCache.validate (c : ValueCache T) (check : T → Bool) : Bool :=
  match c with
  | some value => check value
  | none => false

/-- `ValueCache::extract`: projection of the held value, if any. -/
def ValueCache.extract (c : ValueCache T) (filter : T → R) : Option R :=
  match c with
  | some value => some (filter value)
  | none => none

/-- `ValueCache::set`: unconditionally replace the held value. -/
def ValueCache.set (_c : ValueCache T) (value : T) : ValueCache T :=
  some value

/-- The public operations of the `impl<T> ValueCache<T>` block in
`cache.rs`, in source order. -/
def ValueCache.methods : List String := ["validate", "extract", "set"]

/-- `MapCache<K, V>`: cached map of values (`RwLock<HashMap<K, V>>`). -/
abbrev MapCache (K V : Type) := List (K × V)

/-- `MapCache::extract`: `guard.get(key).map(filter)`. -/
def MapCache.extract [DecidableEq K] (c : MapCache K V) (key : K) (filter : V → R) :
    Option R :=
  (hmGet c key).map filter

/-- `MapCache::is_set`: `guard.contains_key(key)`. -/
def MapCache.is_set [DecidableEq K] (c : MapCache K V) (key : K) : Bool :=
  hmContainsKey c key

/-- `MapCache::set`: `guard.insert(key, value)` (the old value is dropped). -/
def MapCache.set [DecidableEq K] (c : MapCache K V) (key : K) (value : V) :
    MapCache K V :=
  hmInsert c key value

/-- The public operations of the `impl<K, V> MapCache<K, V>` block in
`cache.rs`, in source order. -/
def MapCache.methods : List String := ["extract", "is_set", "set"]

/-! Basic facts about the HashMap model. -/

theorem hmContainsKey_iff_hmGet [DecidableEq K] (c : List (K × V)) (k : K) :
    hmContainsKey c k = true ↔ ∃ v, hmGet c k = some v := by
  induction c with
  | nil => simp [hmContainsKey, hmGet]
  | cons hd tl ih =>
    obtain ⟨k', v'⟩ := hd
    by_cases h : k' = k <;> simp [hmContainsKey, hmGet, h, ih]

theorem hmGet_hmInsert_self [DecidableEq K] (c : List (K × V)) (k : K) (v : V) :
    hmGet (hmInsert c k v) k = some v := by
  induction c with
  | nil => simp [hmInsert, hmGet]
  | cons hd tl ih =>
    obtain ⟨k', v'⟩ := hd
    by_cases h : k' = k <;> simp [hmInsert, hmGet, h, ih]

theorem hmGet_hmInsert_ne [DecidableEq K] (c : List (K × V)) (k k' : K) (v : V)
    (h : k ≠ k') : hmGet (hmInsert c k v) k' = hmGet c k' := by
  induction c with
  | nil => simp [hmInsert, hmGet, h]
  | cons hd tl ih =>
    obtain ⟨k₁, v₁⟩ := hd
    by_cases h₁ : k₁ = k
    · subst h₁
      simp [hmInsert, hmGet, h]
    · simp [hmInsert, hmGet, h₁, ih]

theorem hmContainsKey_hmInsert_mono [DecidableEq K] (c : List (K × V))
    (k k' : K) (v : V) (h : hmContainsKey c k = true) :
    hmContainsKey (hmInsert c k' v) k = true := by
  induction c with
  | nil => simp [hmContainsKey] at h
  | cons hd tl ih =>
    obtain ⟨k₁, v₁⟩ := hd
    by_cases h₂ : k₁ = k
    · subst h₂
      by_cases h₁ : k₁ = k'
      · subst h₁
        simp [hmInsert, hmContainsKey]
      · simp [hmInsert, hmContainsKey, h₁]
    · simp [hmContainsKey, h₂] at h
      by_cases h₁ : k₁ = k'
      · subst h₁
        simp [hmInsert, hmContainsKey, h₂, h]
      · simp [hmInsert, hmContainsKey, h₁, h₂, ih h]

/-! ## Maximum of an iterator

`Iterator::max` over `ApiVersion`s: a left fold keeping the running maximum
(on a tie the later element wins, which for this structural order is the
same value). -/

/-- One step of `Iterator::max`. -/
def maxStep (acc : Option ApiVersion) (v : ApiVersion) : Option ApiVersion :=
  match acc with
  | none => some v
  | some m => if ApiVersion.le m v then some v else some m

/-- `Iterator::max`: `none` on an empty sequence, otherwise the greatest
element. -/
def iterMax (l : List ApiVersion) : Option ApiVersion :=
  l.foldl maxStep none

theorem ApiVersion.le_refl (a : ApiVersion) : ApiVersion.le a a = true := by
  simp [ApiVersion.le]

theorem ApiVersion.le_total (a b : ApiVersion) :
    ApiVersion.le a b = true ∨ ApiVersion.le b a = true := by
  simp only [ApiVersion.le, decide_eq_true_eq]
  omega

theorem ApiVersion.le_trans {a b c : ApiVersion}
    (hab : ApiVersion.le a b = true) (hbc : ApiVersion.le b c = true) :
    ApiVersion.le a c = true := by
  simp only [ApiVersion.le, decide_eq_true_eq] at hab hbc ⊢
  omega

theorem ApiVersion.not_le {a b : ApiVersion} (h : ApiVersion.le a b = false) :
    ApiVersion.le b a = true := by
  rcases ApiVersion.le_total a b with h' | h'
  · rw [h] at h'
    exact absurd h' (by simp)
  · exact h'

theorem foldl_maxStep_some (l : List ApiVersion) (m : ApiVersion) :
    ∃ r, l.foldl maxStep (some m) = some r ∧ (r = m ∨ r ∈ l) ∧
      ApiVersion.le m r = true ∧ ∀ u ∈ l, ApiVersion.le u r = true := by
  induction l generalizing m with
  | nil => exact ⟨m, rfl, Or.inl rfl, ApiVersion.le_refl m, by simp⟩
  | cons a t ih =>
    by_cases h : ApiVersion.le m a = true
    · obtain ⟨r, hr, hmem, hle, hall⟩ := ih a
      refine ⟨r, ?_, ?_, ApiVersion.le_trans h hle, ?_⟩
      · simpa [List.foldl_cons, maxStep, h] using hr
      · rcases hmem with rfl | hmem
        · exact Or.inr (List.mem_cons_self _ _)
        · exact Or.inr (List.mem_cons_of_mem _ hmem)
      · intro u hu
        rcases List.mem_cons.mp hu with rfl | hu
        · exact hle
        · exact hall u hu
    · obtain ⟨r, hr, hmem, hle, hall⟩ := ih m
      have h' : ApiVersion.le m a = false := by
        cases hma : ApiVersion.le m a
        · rfl
        · exact absurd hma h
      refine ⟨r, ?_, ?_, hle, ?_⟩
      · simpa [List.foldl_cons, maxStep, h'] using hr
      · rcases hmem with rfl | hmem
        · exact Or.inl rfl
        · exact Or.inr (List.mem_cons_of_mem _ hmem)
      · intro u hu
        rcases List.mem_cons.mp hu with rfl | hu
        · exact ApiVersion.le_trans (ApiVersion.not_le h') hle
        · exact hall u hu

theorem iterMax_nil : iterMax [] = none := rfl

theorem iterMax_spec (l : List ApiVersion) (hne : l ≠ []) :
    ∃ r, iterMax l = some r ∧ r ∈ l ∧ ∀ u ∈ l, ApiVersion.le u r = true := by
  cases l with
  | nil => exact absurd rfl hne
  | cons a t =>
    obtain ⟨r, hr, hmem, hle, hall⟩ := foldl_maxStep_some t a
    refine ⟨r, ?_, ?_, ?_⟩
    · simpa [iterMax, List.foldl_cons, maxStep] using hr
    · rcases hmem with rfl | hmem
      · exact List.mem_cons_self _ _
      · exact List.mem_cons_of_mem _ hmem
    · intro u hu
      rcases List.mem_cons.mp hu with rfl | hu
      · exact hle
      · exact hall u hu

theorem iterMax_eq_some {l : List ApiVersion} {r : ApiVersion}
    (h : iterMax l = some r) : r ∈ l ∧ ∀ u ∈ l, ApiVersion.le u r = true := by
  cases l with
  | nil => simp [iterMax_nil] at h
  | cons a t =>
    obtain ⟨r', hr', hmem, hall⟩ := iterMax_spec (a :: t) (by simp)
    rw [h] at hr'
    obtain rfl : r = r' := by injection hr'
    exact ⟨hmem, hall⟩

theorem iterMax_eq_none {l : List ApiVersion} (h : iterMax l = none) :
    l = [] := by
  cases l with
  | nil => rfl
  | cons a t =>
    obtain ⟨r, hr, -, -⟩ := iterMax_spec (a :: t) (by simp)
    rw [h] at hr
    cases hr

/-! ## Session (`src/session.rs`)

`Session` holds an `Arc<AuthType>`, an `Arc<MapCache<&str, ServiceInfo>>`
and an optional endpoint interface.  The two `Arc` handles are modelled as
indices into an explicit heap (`World`); the collaborators behind the
`AuthType` capability and `ServiceInfo::fetch` are supplied as an
environment of deterministic functions; every call to a collaborator or a
cache operation is recorded in an event trace. -/

/-- Recoverable error kinds surfaced by the embedded operations. -/
inductive Error
  | invalidEndpoint (msg : String)
  | discoveryFailed (msg : String)
  | other (msg : String)
deriving DecidableEq, Repr

/-- Outcome of a Rust computation: a value, a recoverable `Error`, or a
panic (`expect`). -/
inductive RustResult (T : Type) where
  | ok (value : T)
  | err (e : Error)
  | panic (msg : String)
deriving DecidableEq, Repr

/-- Observable events: cache operations and calls to the collaborators. -/
inductive Event
  | cacheIsSet (key : String)
  | cacheExtract (key : String)
  | cacheSet (key : String)
  | authGetEndpoint (serviceType : String)
  | discoveryFetch (serviceType : String)
  | authRefresh
deriving DecidableEq, Repr

/-- The collaborators of `Session`: the auth capability's `get_endpoint`
and the discovery fetch (`ServiceInfo::fetch`), as deterministic
functions.  URLs are plain strings. -/
structure DiscoveryEnv where
  getEndpoint : String → Option String → Except Error String
  fetch : String → String → Except Error ServiceInfo

/-- The heap of discovery caches: each `Arc<MapCache<..>>` handle is an
index into this list. -/
structure World where
  caches : List (MapCache String ServiceInfo)

/-- Dereference a cache handle (an out-of-range handle reads as empty,
which never happens for handles produced by the operations below). -/
def World.read (w : World) (h : Nat) : MapCache String ServiceInfo :=
  w.caches.getD h []

/-- Replace the cache behind a handle (interior mutability of the shared
`MapCache`). -/
def World.write (w : World) (h : Nat) (c : MapCache String ServiceInfo) : World :=
  ⟨w.caches.set h c⟩

/-- Allocate a fresh, empty cache (`Arc::new(MapCache::default())`),
returning the new world and the new handle. -/
def World.alloc (w : World) : World × Nat :=
  (⟨w.caches ++ [([] : MapCache String ServiceInfo)]⟩, w.caches.length)

/-- `Session`: a shared auth handle, a shared discovery-cache handle and an
optional endpoint interface.  The auth handle is an abstract index (the auth
state itself lives in the environment). -/
structure Session where
  auth : Nat
  cached_info : Nat
  endpoint_interface : Option String
deriving DecidableEq, Repr

/-- `Session::reset_cache`: install a brand-new empty cache handle
(`self.cached_info = Arc::new(MapCache::default())`). -/
def Session.reset_cache (s : Session) (w : World) : Session × World :=
  ({ s with cached_info := (w.alloc).2 }, (w.alloc).1)

/-- `Session::set_auth_type`: reset the cache, then replace the auth
handle. -/
def Session.set_auth_type (s : Session) (w : World) (newAuth : Nat) :
    Session × World :=
  ({ (s.reset_cache w).1 with auth := newAuth }, (s.reset_cache w).2)

/-- `Session::set_endpoint_interface`: reset the cache, then replace the
endpoint interface. -/
def Session.set_endpoint_interface (s : Session) (w : World)
    (endpointInterface : String) : Session × World :=
  ({ (s.reset_cache w).1 with endpoint_interface := some endpointInterface },
   (s.reset_cache w).2)

/-- `Session::refresh`: reset the cache and delegate to the auth
capability's `refresh` (recorded as an `authRefresh` event). -/
def Session.refresh (s : Session) (w : World) :
    (Session × World) × List Event :=
  (s.reset_cache w, [Event.authRefresh])

/-- `Session::extract_service_info` — the single internal ensure-and-extract
operation all endpoint/version queries funnel through:
if the catalog key is cached, project the cached `ServiceInfo` (the
`expect` on a vanished record is modelled as a `panic` outcome); otherwise
ask the auth capability for the base endpoint, fetch `ServiceInfo` from it,
apply the projection to the fresh info, store the info under the catalog
key and return the projection result. -/
def Session.extract_service_info (env : DiscoveryEnv) (s : Session) (w : World)
    (catalog_type : String) (filter : ServiceInfo → T) :
    RustResult T × World × List Event :=
  let cache := w.read s.cached_info
  if cache.is_set catalog_type then
    match cache.extract catalog_type filter with
    | some value =>
      (.ok value, w, [.cacheIsSet catalog_type, .cacheExtract catalog_type])
    | none =>
      (.panic "BUG: cached record removed while in extract_service_info", w,
        [.cacheIsSet catalog_type, .cacheExtract catalog_type])
  else
    match env.getEndpoint catalog_type s.endpoint_interface with
    | .error e =>
      (.err e, w, [.cacheIsSet catalog_type, .authGetEndpoint catalog_type])
    | .ok ep =>
      match env.fetch catalog_type ep with
      | .error e =>
        (.err e, w,
          [.cacheIsSet catalog_type, .authGetEndpoint catalog_type,
           .discoveryFetch catalog_type])
      | .ok info =>
        let value := filter info
        (.ok value, w.write s.cached_info (cache.set catalog_type info),
          [.cacheIsSet catalog_type, .authGetEndpoint catalog_type,
           .discoveryFetch catalog_type, .cacheSet catalog_type])

/-- `Session::get_api_versions`: the (minimum, current) pair when both are
present. -/
def Session.get_api_versions (env : DiscoveryEnv) (s : Session) (w : World)
    (service : String) :
    RustResult (Option (ApiVersion × ApiVersion)) × World × List Event :=
  s.extract_service_info env w service fun info =>
    match info.minimum_version, info.current_version with
    | some lo, some hi => some (lo, hi)
    | _, _ => none

/-- `Session::get_major_version`. -/
def Session.get_major_version (env : DiscoveryEnv) (s : Session) (w : World)
    (service : String) :
    RustResult (Option ApiVersion) × World × List Event :=
  s.extract_service_info env w service fun info => info.major_version

/-- `Session::pick_api_version`: short-circuit to `None` when the candidate
sequence is statically known to be empty (`size_hint().1 == Some(0)`),
otherwise the maximum supported candidate. -/
def Session.pick_api_version (env : DiscoveryEnv) (s : Session) (w : World)
    (service : String) (versions : List ApiVersion) :
    RustResult (Option ApiVersion) × World × List Event :=
  if versions.isEmpty then
    (.ok none, w, [])
  else
    s.extract_service_info env w service fun info =>
      iterMax (versions.filter fun item => info.supports_api_version item)

/-- `Session::supports_api_version`:
`pick_api_version(service, Some(version)).map(|x| x.is_some())`. -/
def Session.supports_api_version (env : DiscoveryEnv) (s : Session) (w : World)
    (service : String) (version : ApiVersion) :
    RustResult Bool × World × List Event :=
  let (r, w', t) := s.pick_api_version env w service [version]
  (match r with
   | .ok x => .ok x.isSome
   | .err e => .err e
   | .panic msg => .panic msg, w', t)

/-- A service's `ServiceInfo` resolves to `info` for a given session and
world: either it is already cached under the catalog key, or it is absent
and the auth capability and the discovery collaborator deliver it. -/
def Resolves (env : DiscoveryEnv) (s : Session) (w : World)
    (catalog_type : String) (info : ServiceInfo) : Prop :=
  hmGet (w.read s.cached_info) catalog_type = some info ∨
    (hmGet (w.read s.cached_info) catalog_type = none ∧
      ∃ ep, env.getEndpoint catalog_type s.endpoint_interface = .ok ep ∧
        env.fetch catalog_type ep = .ok info)

/-! ## Synchronous bridge (`src/sync.rs`)

`SyncStream` wraps an asynchronous chunk stream as an `io::Read`; the
stream is modelled as the list of chunks it will still yield (pulling on an
empty list delivers `None`, the end-of-stream signal, after which the
`StreamFuture` slot stays `None`).  `io::Cursor` over a byte buffer is
modelled explicitly.  Bytes are natural numbers. -/

/-- Model of `io::Cursor<Vec<u8>>`: a buffer plus a read position. -/
structure Cursor where
  data : List Nat
  pos : Nat
deriving DecidableEq, Repr

/-- `io::Cursor::read` into a buffer of length `bufLen`: copies
`min bufLen remaining` bytes and advances the position by that amount. -/
def Cursor.read (c : Cursor) (bufLen : Nat) : List Nat × Cursor :=
  let n := min bufLen (c.data.length - c.pos)
  ((c.data.drop c.pos).take n, { c with pos := c.pos + n })

/-- `SyncStream`: the (not yet pulled) rest of the chunk stream — `none`
once the stream has yielded `None`, mirroring the untaken/taken
`Option<StreamFuture<S>>` slot — plus the cursor over the most recently
received chunk. -/
structure SyncStream where
  inner : Option (List (List Nat))
  chunk : Cursor
deriving DecidableEq, Repr

/-- `SyncStream::new`: bound to a stream, with an empty default cursor. -/
def SyncStream.new (chunks : List (List Nat)) : SyncStream :=
  ⟨some chunks, ⟨[], 0⟩⟩

/-- The pull loop of `SyncStream::read` after the current cursor returned
zero bytes: block for the next chunk; on a chunk, read from a fresh cursor
over it, saving the cursor and the remaining stream, and return if the read
delivered bytes, otherwise loop; on `None` (end of stream) return zero
bytes, leaving the stream slot `None`.

(The source re-reads `self.chunk` at the top of each loop iteration; that
read returns zero bytes again — the saved cursor just returned zero for the
same `bufLen` and its position did not move — so the loop is exactly this
recursion.) -/
def readPull (bufLen : Nat) (chunk : Cursor) :
    List (List Nat) → List Nat × Cursor × Option (List (List Nat))
  | [] => ([], chunk, none)
  | c :: rest =>
    if (Cursor.read ⟨c, 0⟩ bufLen).1.length > 0 then
      ((Cursor.read ⟨c, 0⟩ bufLen).1, (Cursor.read ⟨c, 0⟩ bufLen).2, some rest)
    else readPull bufLen (Cursor.read ⟨c, 0⟩ bufLen).2 rest

/-- `impl io::Read for SyncStream` — `read`: first drain unread bytes left
over from the previously received chunk; if none remain, pull chunks from
the stream. -/
def SyncStream.read (s : SyncStream) (bufLen : Nat) : List Nat × SyncStream :=
  if (s.chunk.read bufLen).1.length > 0 then
    ((s.chunk.read bufLen).1, ⟨s.inner, (s.chunk.read bufLen).2⟩)
  else
    match s.inner with
    | none => ([], ⟨none, (s.chunk.read bufLen).2⟩)
    | some chunks =>
      ((readPull bufLen (s.chunk.read bufLen).2 chunks).1,
       ⟨(readPull bufLen (s.chunk.read bufLen).2 chunks).2.2,
        (readPull bufLen (s.chunk.read bufLen).2 chunks).2.1⟩)

/-- `SyncBody` wrapping an `io::Read` source; the source is modelled as the
`io::Cursor` reader the repository's tests use. -/
structure SyncBody where
  reader : Cursor
deriving DecidableEq, Repr

/-- `impl Stream for SyncBody` — `poll`: read into a fresh 16384-byte
buffer, truncate to the number of bytes read, yield the chunk; yield `None`
on a zero-length read. -/
def SyncBody.poll (b : SyncBody) : Option (List Nat) × SyncBody :=
  let r := b.reader.read 16384
  if r.1.length > 0 then (some r.1, ⟨r.2⟩) else (none, ⟨r.2⟩)

/-- Unread bytes remaining in a cursor. -/
def Cursor.remaining (c : Cursor) : Nat :=
  c.data.length - c.pos

theorem Cursor.read_length (c : Cursor) (bufLen : Nat) :
    (c.read bufLen).1.length = min bufLen c.remaining := by
  simp only [Cursor.read, Cursor.remaining, List.length_take, List.length_drop]
  omega

theorem Cursor.read_snd (c : Cursor) (bufLen : Nat) :
    (c.read bufLen).2 = { c with pos := c.pos + min bufLen c.remaining } := by
  simp [Cursor.read, Cursor.remaining]

theorem Cursor.read_snd_remaining (c : Cursor) (bufLen : Nat) :
    ((c.read bufLen).2).remaining = c.remaining - min bufLen c.remaining := by
  rw [Cursor.read_snd]
  simp [Cursor.remaining]
  omega

/-- A successful `poll` strictly shrinks the reader. -/
theorem SyncBody.poll_some_lt {b : SyncBody} {c : List Nat} {b' : SyncBody}
    (hp : b.poll = (some c, b')) : b'.reader.remaining < b.reader.remaining := by
  have hlen := Cursor.read_length b.reader 16384
  have hrem := Cursor.read_snd_remaining b.reader 16384
  unfold SyncBody.poll at hp
  by_cases hb : (b.reader.read 16384).1.length > 0
  · simp only [hb, if_pos] at hp
    obtain ⟨-, hb'⟩ := Prod.mk.injEq .. ▸ hp
    rw [← hb']
    simp only [hrem]
    omega
  · simp only [hb, if_neg, if_false] at hp
    simp [Prod.ext_iff] at hp

/-- All chunks `SyncBody` yields until it signals end-of-stream. -/
def SyncBody.drainFrom (b : SyncBody) : List (List Nat) :=
  match hp : b.poll with
  | (some c, b') => c :: SyncBody.drainFrom b'
  | (none, _) => []
termination_by b.reader.remaining
decreasing_by exact SyncBody.poll_some_lt hp

/-! ## Helper lemmas about the world heap and ensure-and-extract -/

theorem World.read_write_self (w : World) (h : Nat)
    (c : MapCache String ServiceInfo) (hv : h < w.caches.length) :
    (w.write h c).read h = c := by
  simp [World.read, World.write, List.getD_eq_getElem?_getD, List.getElem?_set,
    hv]

theorem World.read_alloc_old (w : World) (h : Nat) (hv : h < w.caches.length) :
    (w.alloc).1.read h = w.read h := by
  simp [World.read, World.alloc, List.getD_eq_getElem?_getD,
    List.getElem?_append_left hv]

theorem World.read_alloc_new (w : World) :
    (w.alloc).1.read (w.alloc).2 = ([] : MapCache String ServiceInfo) := by
  simp [World.read, World.alloc, List.getD_eq_getElem?_getD,
    List.getElem?_concat_length]

theorem hmContainsKey_hmInsert_self [DecidableEq K] (c : List (K × V))
    (k : K) (v : V) : hmContainsKey (hmInsert c k v) k = true :=
  (hmContainsKey_iff_hmGet _ _).mpr ⟨v, hmGet_hmInsert_self c k v⟩

/-- Cache hit: ensure-and-extract returns the projection of the cached
record, leaves the world unchanged and calls no collaborator. -/
theorem esi_hit {T : Type} (env : DiscoveryEnv) (s : Session) (w : World)
    (ct : String) (f : ServiceInfo → T) (info : ServiceInfo)
    (h : hmGet (w.read s.cached_info) ct = some info) :
    s.extract_service_info env w ct f =
      (.ok (f info), w, [.cacheIsSet ct, .cacheExtract ct]) := by
  have hs : MapCache.is_set (w.read s.cached_info) ct = true := by
    rw [MapCache.is_set]
    exact (hmContainsKey_iff_hmGet _ _).mpr ⟨info, h⟩
  simp [Session.extract_service_info, hs, MapCache.extract, h]

/-- Cache miss with both collaborators succeeding: ensure-and-extract
projects the freshly fetched record and stores it under the catalog key. -/
theorem esi_miss_ok {T : Type} (env : DiscoveryEnv) (s : Session) (w : World)
    (ct : String) (f : ServiceInfo → T) (ep : String) (info : ServiceInfo)
    (h : hmGet (w.read s.cached_info) ct = none)
    (hep : env.getEndpoint ct s.endpoint_interface = .ok ep)
    (hf : env.fetch ct ep = .ok info) :
    s.extract_service_info env w ct f =
      (.ok (f info),
       w.write s.cached_info ((w.read s.cached_info).set ct info),
       [.cacheIsSet ct, .authGetEndpoint ct, .discoveryFetch ct,
        .cacheSet ct]) := by
  have hs : MapCache.is_set (w.read s.cached_info) ct = false := by
    rw [MapCache.is_set]
    cases hc : hmContainsKey (w.read s.cached_info) ct
    · rfl
    · obtain ⟨v, hv⟩ := (hmContainsKey_iff_hmGet _ _).mp hc
      rw [h] at hv
      cases hv
  simp [Session.extract_service_info, hs, hep, hf]

/-- Cache miss where the auth capability fails. -/
theorem esi_miss_auth_err {T : Type} (env : DiscoveryEnv) (s : Session)
    (w : World) (ct : String) (f : ServiceInfo → T) (e : Error)
    (h : hmGet (w.read s.cached_info) ct = none)
    (hep : env.getEndpoint ct s.endpoint_interface = .error e) :
    s.extract_service_info env w ct f =
      (.err e, w, [.cacheIsSet ct, .authGetEndpoint ct]) := by
  have hs : MapCache.is_set (w.read s.cached_info) ct = false := by
    rw [MapCache.is_set]
    cases hc : hmContainsKey (w.read s.cached_info) ct
    · rfl
    · obtain ⟨v, hv⟩ := (hmContainsKey_iff_hmGet _ _).mp hc
      rw [h] at hv
      cases hv
  simp [Session.extract_service_info, hs, hep]

/-- Cache miss where the discovery fetch fails. -/
theorem esi_miss_fetch_err {T : Type} (env : DiscoveryEnv) (s : Session)
    (w : World) (ct : String) (f : ServiceInfo → T) (ep : String) (e : Error)
    (h : hmGet (w.read s.cached_info) ct = none)
    (hep : env.getEndpoint ct s.endpoint_interface = .ok ep)
    (hf : env.fetch ct ep = .error e) :
    s.extract_service_info env w ct f =
      (.err e, w,
       [.cacheIsSet ct, .authGetEndpoint ct, .discoveryFetch ct]) := by
  have hs : MapCache.is_set (w.read s.cached_info) ct = false := by
    rw [MapCache.is_set]
    cases hc : hmContainsKey (w.read s.cached_info) ct
    · rfl
    · obtain ⟨v, hv⟩ := (hmContainsKey_iff_hmGet _ _).mp hc
      rw [h] at hv
      cases hv
  simp [Session.extract_service_info, hs, hep, hf]

/-- Exhaustive case analysis of ensure-and-extract.  The `expect` branch
never fires: a set key always extracts. -/
theorem esi_cases {T : Type} (env : DiscoveryEnv) (s : Session) (w : World)
    (ct : String) (f : ServiceInfo → T) :
    (∃ info, hmGet (w.read s.cached_info) ct = some info ∧
      s.extract_service_info env w ct f =
        (.ok (f info), w, [.cacheIsSet ct, .cacheExtract ct])) ∨
    (hmGet (w.read s.cached_info) ct = none ∧
      ((∃ e, env.getEndpoint ct s.endpoint_interface = .error e ∧
        s.extract_service_info env w ct f =
          (.err e, w, [.cacheIsSet ct, .authGetEndpoint ct])) ∨
       (∃ ep e, env.getEndpoint ct s.endpoint_interface = .ok ep ∧
        env.fetch ct ep = .error e ∧
        s.extract_service_info env w ct f =
          (.err e, w,
           [.cacheIsSet ct, .authGetEndpoint ct, .discoveryFetch ct])) ∨
       (∃ ep info, env.getEndpoint ct s.endpoint_interface = .ok ep ∧
        env.fetch ct ep = .ok info ∧
        s.extract_service_info env w ct f =
          (.ok (f info),
           w.write s.cached_info ((w.read s.cached_info).set ct info),
           [.cacheIsSet ct, .authGetEndpoint ct, .discoveryFetch ct,
            .cacheSet ct])))) := by
  cases hget : hmGet (w.read s.cached_info) ct with
  | some info => exact Or.inl ⟨info, rfl, esi_hit env s w ct f info hget⟩
  | none =>
    refine Or.inr ⟨rfl, ?_⟩
    cases hep : env.getEndpoint ct s.endpoint_interface with
    | error e => exact Or.inl ⟨e, rfl, esi_miss_auth_err env s w ct f e hget hep⟩
    | ok ep =>
      cases hf : env.fetch ct ep with
      | error e =>
        exact Or.inr (Or.inl ⟨ep, e, rfl, hf,
          esi_miss_fetch_err env s w ct f ep e hget hep hf⟩)
      | ok info =>
        exact Or.inr (Or.inr ⟨ep, info, rfl, hf,
          esi_miss_ok env s w ct f ep info hget hep hf⟩)

/-- When the service resolves to `info` — cached, or absent with both
collaborators delivering — ensure-and-extract returns the projection of
`info`. -/
theorem esi_resolves {T : Type} (env : DiscoveryEnv) (s : Session) (w : World)
    (ct : String) (f : ServiceInfo → T) (info : ServiceInfo)
    (h : Resolves env s w ct info) :
    (s.extract_service_info env w ct f).1 = .ok (f info) := by
  rcases h with h | ⟨hnone, ep, hep, hf⟩
  · rw [esi_hit env s w ct f info h]
  · rw [esi_miss_ok env s w ct f ep info hnone hep hf]

/-! ## Concrete fixtures (mirroring the repository's test fixtures) -/

/-- The fake `ServiceInfo` of the repository's tests: root URL
`http://127.0.0.1:5000/`, major version 2.0, microversion range
[2.1, 2.42]. -/
def infoFake : ServiceInfo :=
  ⟨"http://127.0.0.1:5000/", some ⟨2, 0⟩, some ⟨2, 1⟩, some ⟨2, 42⟩⟩

/-- An environment whose auth capability always returns the fixed endpoint
and whose discovery always delivers `infoFake`. -/
def envFake : DiscoveryEnv :=
  ⟨fun _ _ => .ok "http://127.0.0.1:5000/", fun _ _ => .ok infoFake⟩

/-- A session with auth handle 0 and cache handle 0. -/
def sessionFake : Session := ⟨0, 0, none⟩

/-- A world whose single cache already holds `infoFake` under `"fake"`. -/
def worldCached : World := ⟨[[("fake", infoFake)]]⟩

/-- A world whose single cache is empty. -/
def worldEmpty : World := ⟨[([] : MapCache String ServiceInfo)]⟩

/-! ## Claims -/

/-- C4: `pick_api_version` over a statically-empty candidate set (an empty
vector or `None` both present the iterator as empty) returns `None` as a
success value, leaves the world unchanged, and performs no cache access, no
auth call and no discovery fetch (the event trace is empty). -/
theorem C4_pick_api_version_empty (env : DiscoveryEnv) (s : Session)
    (w : World) (service : String) :
    s.pick_api_version env w service [] = (.ok none, w, []) := by
  simp [Session.pick_api_version]

/-- C6 counterexample: the claim says the keyed cache offers
`validate(key, predicate)`; the `impl MapCache` block offers only
`extract`, `is_set` and `set` — there is no `validate` operation. -/
theorem C6_counterexample : "validate" ∉ MapCache.methods := by
  decide

/-- C6 (amended): the keyed cache offers `extract(key, projector)` yielding
`Some(projection)` iff the key is present, `set(key, value)` binding the
key unconditionally (and only that key), and `is_set(key)` true iff a value
is present for the key; unlike the single-value cache it offers no
`validate` operation. -/
theorem C6_keyed_cache_operations :
    ("validate" ∈ ValueCache.methods ∧ "validate" ∉ MapCache.methods) ∧
    (∀ (V R : Type) (c : MapCache String V) (k : String) (f : V → R),
      (∀ v, hmGet c k = some v → MapCache.extract c k f = some (f v)) ∧
      (hmGet c k = none → MapCache.extract c k f = none)) ∧
    (∀ (V : Type) (c : MapCache String V) (k : String),
      MapCache.is_set c k = true ↔ ∃ v, hmGet c k = some v) ∧
    (∀ (V : Type) (c : MapCache String V) (k : String) (v : V),
      hmGet (MapCache.set c k v) k = some v ∧
      ∀ k', k ≠ k' → hmGet (MapCache.set c k v) k' = hmGet c k') := by
  refine ⟨⟨by decide, by decide⟩, ?_, ?_, ?_⟩
  · intro V R c k f
    constructor
    · intro v hv
      simp [MapCache.extract, hv]
    · intro hv
      simp [MapCache.extract, hv]
  · intro V c k
    exact hmContainsKey_iff_hmGet c k
  · intro V c k v
    exact ⟨hmGet_hmInsert_self c k v, fun k' hk => hmGet_hmInsert_ne c k k' v hk⟩

/-- C6 witness: on the concrete one-entry cache `[("x", 1)]`, the key is
present and `extract` applies the projection to the stored value. -/
theorem C6_witness :
    hmGet ([("x", 1)] : MapCache String Nat) "x" = some 1 ∧
    MapCache.extract ([("x", 1)] : MapCache String Nat) "x"
      (fun v => v + 1) = some 2 :=
  ⟨by simp [hmGet],
   (C6_keyed_cache_operations.2.1 Nat Nat [("x", 1)] "x" (fun v => v + 1)).1
     1 (by simp [hmGet])⟩

/-- C9: the keyed cache exposes no removal operation, so key presence is
monotone over any sequence of operations (only `set` mutates, and it
preserves every present key); consequently the
`"BUG: cached record removed while in extract_service_info"` `expect`
branch of `Session::extract_service_info` is unreachable: the operation
never panics. -/
theorem C9_no_removal_panic_free :
    ("remove" ∉ MapCache.methods ∧ "take" ∉ MapCache.methods ∧
      "clear" ∉ MapCache.methods) ∧
    (∀ (c : MapCache String ServiceInfo) (sets : List (String × ServiceInfo))
      (k : String), MapCache.is_set c k = true →
      MapCache.is_set
        (sets.foldl (fun acc kv => MapCache.set acc kv.1 kv.2) c) k = true) ∧
    (∀ (T : Type) (env : DiscoveryEnv) (s : Session) (w : World) (ct : String)
      (f : ServiceInfo → T) (msg : String),
      (s.extract_service_info env w ct f).1 ≠ .panic msg) := by
  refine ⟨⟨by decide, by decide, by decide⟩, ?_, ?_⟩
  · intro c sets k h
    induction sets generalizing c with
    | nil => exact h
    | cons kv rest ih =>
      exact ih (MapCache.set c kv.1 kv.2)
        (hmContainsKey_hmInsert_mono c k kv.1 kv.2 h)
  · intro T env s w ct f msg
    rcases esi_cases env s w ct f with ⟨info, -, heq⟩ |
      ⟨-, ⟨e, -, heq⟩ | ⟨ep, e, -, -, heq⟩ | ⟨ep, info, -, -, heq⟩⟩ <;>
      simp [heq]

/-- C9 witness: a concretely populated key stays present across a further
`set` on a different key. -/
theorem C9_witness :
    MapCache.is_set ([("fake", infoFake)] : MapCache String ServiceInfo)
      "fake" = true ∧
    MapCache.is_set
      ([("other", infoFake)].foldl (fun acc kv => MapCache.set acc kv.1 kv.2)
        ([("fake", infoFake)] : MapCache String ServiceInfo)) "fake" = true :=
  ⟨by simp [MapCache.is_set, hmContainsKey],
   C9_no_removal_panic_free.2.1 [("fake", infoFake)] [("other", infoFake)]
     "fake" (by simp [MapCache.is_set, hmContainsKey])⟩

/-- C1: every endpoint/version query funnels through ensure-and-extract.
If the catalog key is cached, the query returns the projection of the
cached `ServiceInfo` with no auth call and no discovery fetch; if it is
absent, the base endpoint comes from the auth capability, `ServiceInfo` is
fetched from the discovery collaborator, the projection is applied to the
fresh info, the info is stored under the catalog key, and the projection
result is returned.  Consequently, after any successful query the next
query for the same key performs no discovery fetch (its trace is the
cache-hit trace). -/
theorem C1_ensure_and_extract {T U : Type} (env : DiscoveryEnv) (s : Session)
    (w : World) (ct : String) (f : ServiceInfo → T) :
    (∀ info, hmGet (w.read s.cached_info) ct = some info →
      s.extract_service_info env w ct f =
        (.ok (f info), w, [.cacheIsSet ct, .cacheExtract ct])) ∧
    (hmGet (w.read s.cached_info) ct = none →
      ∀ ep info, env.getEndpoint ct s.endpoint_interface = .ok ep →
        env.fetch ct ep = .ok info →
        s.extract_service_info env w ct f =
          (.ok (f info),
           w.write s.cached_info ((w.read s.cached_info).set ct info),
           [.cacheIsSet ct, .authGetEndpoint ct, .discoveryFetch ct,
            .cacheSet ct])) ∧
    (s.cached_info < w.caches.length →
      ∀ v w' t, s.extract_service_info env w ct f = (.ok v, w', t) →
        ∀ (g : ServiceInfo → U),
          (s.extract_service_info env w' ct g).2.2 =
            [.cacheIsSet ct, .cacheExtract ct]) := by
  refine ⟨fun info h => esi_hit env s w ct f info h,
    fun h ep info hep hf => esi_miss_ok env s w ct f ep info h hep hf, ?_⟩
  intro hv v w' t h g
  rcases esi_cases env s w ct f with ⟨info, hget, heq⟩ |
    ⟨hget, ⟨e, -, heq⟩ | ⟨ep, e, -, -, heq⟩ | ⟨ep, info, hep, hf, heq⟩⟩
  · rw [heq] at h
    obtain ⟨-, hw, -⟩ : _ ∧ w = w' ∧ _ := by
      simpa [Prod.ext_iff] using h
    rw [← hw, esi_hit env s w ct g info hget]
  · rw [heq] at h
    simp [Prod.ext_iff] at h
  · rw [heq] at h
    simp [Prod.ext_iff] at h
  · rw [heq] at h
    obtain ⟨-, hw, -⟩ : _ ∧ _ = w' ∧ _ := by
      simpa [Prod.ext_iff] using h
    have hread : w'.read s.cached_info =
        (w.read s.cached_info).set ct info := by
      rw [← hw]
      exact World.read_write_self w s.cached_info _ hv
    have hget' : hmGet (w'.read s.cached_info) ct = some info := by
      rw [hread]
      exact hmGet_hmInsert_self _ ct info
    rw [esi_hit env s w' ct g info hget']

/-- C1 witness: with the cache already holding `infoFake` under `"fake"`,
the major-version query returns the cached projection with the cache-hit
trace; with an empty cache and the fake collaborators, it fetches, stores
and returns the same projection. -/
theorem C1_witness :
    hmGet (worldCached.read sessionFake.cached_info) "fake" = some infoFake ∧
    Session.extract_service_info envFake sessionFake worldCached "fake"
      (fun info => info.major_version) =
      (.ok (some ⟨2, 0⟩), worldCached,
       [.cacheIsSet "fake", .cacheExtract "fake"]) ∧
    Session.extract_service_info envFake sessionFake worldEmpty "fake"
      (fun info => info.major_version) =
      (.ok (some ⟨2, 0⟩),
       worldEmpty.write sessionFake.cached_info
         ((worldEmpty.read sessionFake.cached_info).set "fake" infoFake),
       [.cacheIsSet "fake", .authGetEndpoint "fake", .discoveryFetch "fake",
        .cacheSet "fake"]) :=
  ⟨by simp [worldCached, World.read, sessionFake, hmGet],
   (C1_ensure_and_extract (U := Unit) envFake sessionFake worldCached "fake"
       (fun info => info.major_version)).1 infoFake
     (by simp [worldCached, World.read, sessionFake, hmGet]),
   ((C1_ensure_and_extract (U := Unit) envFake sessionFake worldEmpty "fake"
       (fun info => info.major_version)).2.1
     (by simp [worldEmpty, World.read, sessionFake, hmGet])
     "http://127.0.0.1:5000/" infoFake rfl rfl)⟩

theorem iterMax_filter_singleton (p : ApiVersion → Bool) (v : ApiVersion) :
    iterMax (List.filter p [v]) = if p v then some v else none := by
  cases hp : p v <;> simp [List.filter_cons, hp, iterMax, maxStep]

theorem supports_of_no_range (info : ServiceInfo)
    (h : info.minimum_version = none ∨ info.current_version = none)
    (u : ApiVersion) : info.supports_api_version u = true := by
  unfold ServiceInfo.supports_api_version
  rcases hmin : info.minimum_version with - | lo
  · rcases hcur : info.current_version with - | hi <;> rfl
  · rcases h with h | h
    · rw [h] at hmin
      cases hmin
    · rw [h]

/-- C2: on a service resolving to `info`, a non-empty candidate set yields
the maximum supported candidate: with a published [minimum, current] range,
the greatest candidate inside the range, and `None` (a success value, never
an error) when no candidate lies inside; without a discoverable range, the
greatest candidate overall. -/
theorem C2_pick_api_version_max (env : DiscoveryEnv) (s : Session) (w : World)
    (service : String) (versions : List ApiVersion) (info : ServiceInfo)
    (hres : Resolves env s w service info) (hne : versions ≠ []) :
    (s.pick_api_version env w service versions).1 =
      .ok (iterMax (versions.filter fun item =>
        info.supports_api_version item)) ∧
    (∀ lo hi, info.minimum_version = some lo → info.current_version = some hi →
      ((∃ v, (s.pick_api_version env w service versions).1 = .ok (some v) ∧
          v ∈ versions ∧ ApiVersion.le lo v = true ∧
          ApiVersion.le v hi = true ∧
          ∀ u ∈ versions, ApiVersion.le lo u = true →
            ApiVersion.le u hi = true → ApiVersion.le u v = true) ∨
       ((s.pick_api_version env w service versions).1 = .ok none ∧
        ∀ u ∈ versions, ¬(ApiVersion.le lo u = true ∧
          ApiVersion.le u hi = true)))) ∧
    ((info.minimum_version = none ∨ info.current_version = none) →
      ∃ v, (s.pick_api_version env w service versions).1 = .ok (some v) ∧
        v ∈ versions ∧ ∀ u ∈ versions, ApiVersion.le u v = true) := by
  have hmain : (s.pick_api_version env w service versions).1 =
      .ok (iterMax (versions.filter fun item =>
        info.supports_api_version item)) := by
    rw [Session.pick_api_version]
    simp only [List.isEmpty_eq_true, hne, if_false]
    exact esi_resolves env s w service _ info hres
  refine ⟨hmain, ?_, ?_⟩
  · intro lo hi hlo hhi
    have hsup : ∀ u, info.supports_api_version u =
        (ApiVersion.le lo u && ApiVersion.le u hi) := by
      intro u
      simp [ServiceInfo.supports_api_version, hlo, hhi]
    cases hfil : versions.filter fun item => info.supports_api_version item with
    | nil =>
      refine Or.inr ⟨by rw [hmain, hfil, iterMax_nil], ?_⟩
      intro u hu hcon
      have : info.supports_api_version u = true := by
        rw [hsup u]
        simp [hcon.1, hcon.2]
      have hmem : u ∈ versions.filter fun item =>
          info.supports_api_version item :=
        List.mem_filter.mpr ⟨hu, this⟩
      rw [hfil] at hmem
      cases hmem
    | cons a t =>
      obtain ⟨r, hr, hrmem, hrall⟩ := iterMax_spec (a :: t) (by simp)
      rw [← hfil] at hr hrmem hrall
      obtain ⟨hrv, hrp⟩ := List.mem_filter.mp hrmem
      rw [hsup r] at hrp
      refine Or.inl ⟨r, by rw [hmain, hr], hrv,
        (Bool.and_eq_true _ _ ▸ hrp).1, (Bool.and_eq_true _ _ ▸ hrp).2, ?_⟩
      intro u hu hul huh
      exact hrall u (List.mem_filter.mpr ⟨hu, by rw [hsup u]; simp [hul, huh]⟩)
  · intro hnone
    have hsup : ∀ u, info.supports_api_version u = true :=
      supports_of_no_range info hnone
    have hfil : (versions.filter fun item =>
        info.supports_api_version item) = versions :=
      List.filter_eq_self.mpr fun u hu => hsup u
    obtain ⟨r, hr, hrmem, hrall⟩ := iterMax_spec versions hne
    exact ⟨r, by rw [hmain, hfil, hr], hrmem, hrall⟩

/-- C2 witness: against the cached fake service with range [2.1, 2.42],
candidates {2.0, 2.2, 2.4, 2.99} pick 2.4 (the maximum supported, not the
maximum requested) and candidates {2.0, 2.99} pick nothing — as a success
value. -/
theorem C2_witness :
    Resolves envFake sessionFake worldCached "fake" infoFake ∧
    (Session.pick_api_version envFake sessionFake worldCached "fake"
      [⟨2, 0⟩, ⟨2, 2⟩, ⟨2, 4⟩, ⟨2, 99⟩]).1 = .ok (some ⟨2, 4⟩) ∧
    (Session.pick_api_version envFake sessionFake worldCached "fake"
      [⟨2, 0⟩, ⟨2, 99⟩]).1 = .ok none := by
  have hres : Resolves envFake sessionFake worldCached "fake" infoFake :=
    Or.inl (by simp [worldCached, World.read, sessionFake, hmGet])
  refine ⟨hres, ?_, ?_⟩
  · rw [(C2_pick_api_version_max envFake sessionFake worldCached "fake"
      [⟨2, 0⟩, ⟨2, 2⟩, ⟨2, 4⟩, ⟨2, 99⟩] infoFake hres (by simp)).1]
    decide
  · rw [(C2_pick_api_version_max envFake sessionFake worldCached "fake"
      [⟨2, 0⟩, ⟨2, 99⟩] infoFake hres (by simp)).1]
    decide

theorem pick_singleton_shape (env : DiscoveryEnv) (s : Session) (w : World)
    (service : String) (v : ApiVersion) :
    (s.pick_api_version env w service [v]).1 = .ok none ∨
    (s.pick_api_version env w service [v]).1 = .ok (some v) ∨
    ∃ e, (s.pick_api_version env w service [v]).1 = .err e := by
  rw [Session.pick_api_version]
  simp only [List.isEmpty_cons, if_false, Bool.false_eq_true]
  rcases esi_cases env s w service (fun info =>
      iterMax ([v].filter fun item => info.supports_api_version item)) with
    ⟨info, -, heq⟩ | ⟨-, ⟨e, -, heq⟩ | ⟨ep, e, -, -, heq⟩ | ⟨ep, info, -, -, heq⟩⟩
  · rw [heq]
    rw [iterMax_filter_singleton]
    cases hp : info.supports_api_version v
    · simp
    · simp
  · rw [heq]
    exact Or.inr (Or.inr ⟨e, rfl⟩)
  · rw [heq]
    exact Or.inr (Or.inr ⟨e, rfl⟩)
  · rw [heq]
    rw [iterMax_filter_singleton]
    cases hp : info.supports_api_version v
    · simp
    · simp

theorem supports_fst_eq (env : DiscoveryEnv) (s : Session) (w : World)
    (service : String) (v : ApiVersion) :
    (s.supports_api_version env w service v).1 =
      match (s.pick_api_version env w service [v]).1 with
      | .ok x => .ok x.isSome
      | .err e => .err e
      | .panic msg => .panic msg := by
  rcases hpick : s.pick_api_version env w service [v] with ⟨r, w', t⟩
  simp [Session.supports_api_version, hpick]

/-- C8: `supports_api_version(service, v)` returns `true` exactly when
`pick_api_version(service, [v])` returns `Some(v)`; when the service
resolves to `info`, the returned boolean is precisely whether `v` falls
within the published [minimum, current] range (trivially true when no range
is discoverable). -/
theorem C8_supports_iff_pick (env : DiscoveryEnv) (s : Session) (w : World)
    (service : String) (v : ApiVersion) :
    ((s.supports_api_version env w service v).1 = .ok true ↔
      (s.pick_api_version env w service [v]).1 = .ok (some v)) ∧
    (∀ info, Resolves env s w service info →
      (s.supports_api_version env w service v).1 =
        .ok (info.supports_api_version v)) := by
  constructor
  · rw [supports_fst_eq]
    rcases pick_singleton_shape env s w service v with h | h | ⟨e, h⟩ <;>
      rw [h] <;> simp
  · intro info hres
    rw [supports_fst_eq]
    have hpick : (s.pick_api_version env w service [v]).1 =
        .ok (iterMax ([v].filter fun item =>
          info.supports_api_version item)) := by
      rw [Session.pick_api_version]
      simp only [List.isEmpty_cons, if_false, Bool.false_eq_true]
      exact esi_resolves env s w service _ info hres
    rw [hpick, iterMax_filter_singleton]
    cases hp : info.supports_api_version v <;> simp

/-- C8 witness: against the cached fake service (range [2.1, 2.42]),
version 2.4 is supported and is exactly what the singleton pick returns;
version 2.99 is not supported. -/
theorem C8_witness :
    ((Session.supports_api_version envFake sessionFake worldCached "fake"
        ⟨2, 4⟩).1 = .ok true ↔
      (Session.pick_api_version envFake sessionFake worldCached "fake"
        [⟨2, 4⟩]).1 = .ok (some ⟨2, 4⟩)) ∧
    (Session.supports_api_version envFake sessionFake worldCached "fake"
      ⟨2, 99⟩).1 = .ok false :=
  ⟨(C8_supports_iff_pick envFake sessionFake worldCached "fake" ⟨2, 4⟩).1,
   (C8_supports_iff_pick envFake sessionFake worldCached "fake" ⟨2, 99⟩).2
     infoFake
     (Or.inl (by simp [worldCached, World.read, sessionFake, hmGet]))⟩

theorem reset_cache_spec (s : Session) (w : World)
    (hv : s.cached_info < w.caches.length) :
    (s.reset_cache w).1.cached_info ≠ s.cached_info ∧
    (s.reset_cache w).2.read (s.reset_cache w).1.cached_info =
      ([] : MapCache String ServiceInfo) ∧
    (∀ h, h < w.caches.length →
      (s.reset_cache w).2.read h = w.read h) ∧
    (s.reset_cache w).1.auth = s.auth ∧
    (s.reset_cache w).1.endpoint_interface = s.endpoint_interface := by
  refine ⟨?_, ?_, ?_, rfl, rfl⟩
  · simp only [Session.reset_cache, World.alloc]
    omega
  · simpa only [Session.reset_cache] using World.read_alloc_new w
  · intro h hh
    simpa only [Session.reset_cache] using World.read_alloc_old w h hh

/-- On an empty cache every lookup misses, so any query through
ensure-and-extract reaches the discovery fetch once the auth capability
delivers an endpoint. -/
theorem esi_fetches_on_empty {T : Type} (env : DiscoveryEnv) (s : Session)
    (w : World) (ct : String) (f : ServiceInfo → T) (ep : String)
    (hempty : w.read s.cached_info = ([] : MapCache String ServiceInfo))
    (hep : env.getEndpoint ct s.endpoint_interface = .ok ep) :
    Event.discoveryFetch ct ∈ (s.extract_service_info env w ct f).2.2 := by
  have hget : hmGet (w.read s.cached_info) ct = none := by
    rw [hempty]
    rfl
  cases hf : env.fetch ct ep with
  | error e =>
    rw [esi_miss_fetch_err env s w ct f ep e hget hep hf]
    simp
  | ok info =>
    rw [esi_miss_ok env s w ct f ep info hget hep hf]
    simp

/-- C3: `set_auth_type`, `set_endpoint_interface` and `refresh` each
replace the Session's discovery-cache handle with a fresh empty one
(replacement, not in-place mutation): the new handle differs from the old,
reads as empty, and every previously existing handle — in particular the
one a clone still holds — reads exactly as before.  The next query through
the new handle misses the cache and reaches the discovery fetch (once the
auth capability delivers an endpoint), even if the old cache held the key;
`refresh` additionally delegates to the auth capability's `refresh`. -/
theorem C3_cache_handle_replacement (s : Session) (w : World)
    (hv : s.cached_info < w.caches.length) (newAuth : Nat)
    (endpointInterface : String) :
    (∀ s' w', s.set_auth_type w newAuth = (s', w') →
      s'.cached_info ≠ s.cached_info ∧
      w'.read s'.cached_info = ([] : MapCache String ServiceInfo) ∧
      (∀ h, h < w.caches.length → w'.read h = w.read h) ∧
      (∀ (T : Type) (env : DiscoveryEnv) (ct : String) (f : ServiceInfo → T)
        (ep : String), env.getEndpoint ct s'.endpoint_interface = .ok ep →
        Event.discoveryFetch ct ∈
          (s'.extract_service_info env w' ct f).2.2)) ∧
    (∀ s' w', s.set_endpoint_interface w endpointInterface = (s', w') →
      s'.cached_info ≠ s.cached_info ∧
      w'.read s'.cached_info = ([] : MapCache String ServiceInfo) ∧
      (∀ h, h < w.caches.length → w'.read h = w.read h) ∧
      (∀ (T : Type) (env : DiscoveryEnv) (ct : String) (f : ServiceInfo → T)
        (ep : String), env.getEndpoint ct s'.endpoint_interface = .ok ep →
        Event.discoveryFetch ct ∈
          (s'.extract_service_info env w' ct f).2.2)) ∧
    (∀ s' w' trace, s.refresh w = ((s', w'), trace) →
      s'.cached_info ≠ s.cached_info ∧
      w'.read s'.cached_info = ([] : MapCache String ServiceInfo) ∧
      (∀ h, h < w.caches.length → w'.read h = w.read h) ∧
      trace = [Event.authRefresh] ∧
      (∀ (T : Type) (env : DiscoveryEnv) (ct : String) (f : ServiceInfo → T)
        (ep : String), env.getEndpoint ct s'.endpoint_interface = .ok ep →
        Event.discoveryFetch ct ∈
          (s'.extract_service_info env w' ct f).2.2)) := by
  obtain ⟨hne, hempty, hold, hauth, hei⟩ := reset_cache_spec s w hv
  refine ⟨?_, ?_, ?_⟩
  · intro s' w' heq
    rw [Session.set_auth_type] at heq
    injection heq with h1 h2
    subst h1
    subst h2
    exact ⟨hne, hempty, hold,
      fun T env ct f ep hep => esi_fetches_on_empty env _ _ ct f ep hempty hep⟩
  · intro s' w' heq
    rw [Session.set_endpoint_interface] at heq
    injection heq with h1 h2
    subst h1
    subst h2
    exact ⟨hne, hempty, hold,
      fun T env ct f ep hep => esi_fetches_on_empty env _ _ ct f ep hempty hep⟩
  · intro s' w' trace heq
    rw [Session.refresh] at heq
    injection heq with hsw ht
    have h1 : (s.reset_cache w).1 = s' := congrArg Prod.fst hsw
    have h2 : (s.reset_cache w).2 = w' := congrArg Prod.snd hsw
    subst h1
    subst h2
    subst ht
    exact ⟨hne, hempty, hold, rfl,
      fun T env ct f ep hep => esi_fetches_on_empty env _ _ ct f ep hempty hep⟩

/-- C3 witness: replacing the auth type on the concrete cached session
yields a fresh empty cache handle while the old handle still reads the old
entry, and the next query emits a discovery fetch. -/
theorem C3_witness :
    sessionFake.cached_info < worldCached.caches.length ∧
    ∀ s' w', Session.set_auth_type sessionFake worldCached 7 = (s', w') →
      s'.cached_info ≠ sessionFake.cached_info ∧
      w'.read s'.cached_info = ([] : MapCache String ServiceInfo) ∧
      (∀ h, h < worldCached.caches.length → w'.read h = worldCached.read h) ∧
      (∀ (T : Type) (env : DiscoveryEnv) (ct : String) (f : ServiceInfo → T)
        (ep : String), env.getEndpoint ct s'.endpoint_interface = .ok ep →
        Event.discoveryFetch ct ∈
          (s'.extract_service_info env w' ct f).2.2) :=
  ⟨by simp [sessionFake, worldCached],
   (C3_cache_handle_replacement sessionFake worldCached
     (by simp [sessionFake, worldCached]) 7 "internal").1⟩

theorem Cursor.remaining_zero_of_read_nil {c : Cursor} {n : Nat} (hn : 0 < n)
    (h : (c.read n).1.length = 0) : c.remaining = 0 := by
  have := Cursor.read_length c n
  omega

theorem readPull_nil {n : Nat} (hn : 0 < n) (ch : Cursor)
    (l : List (List Nat)) (hch : ch.remaining = 0)
    (h : (readPull n ch l).1 = []) :
    (readPull n ch l).2.1.remaining = 0 ∧ (readPull n ch l).2.2 = none := by
  induction l generalizing ch with
  | nil => exact ⟨hch, rfl⟩
  | cons c rest ih =>
    simp only [readPull] at h ⊢
    by_cases hc : (Cursor.read ⟨c, 0⟩ n).1.length > 0
    · rw [if_pos hc] at h
      rw [h] at hc
      simp at hc
    · have hc0 : (Cursor.read ⟨c, 0⟩ n).1.length = 0 := by omega
      have hcur : ((Cursor.read ⟨c, 0⟩ n).2).remaining = 0 := by
        have := Cursor.remaining_zero_of_read_nil hn hc0
        rw [Cursor.read_snd_remaining]
        omega
      rw [if_neg hc] at h ⊢
      exact ih _ hcur h

theorem SyncStream.read_terminal (s : SyncStream) (m : Nat)
    (hinner : s.inner = none) (hch : s.chunk.remaining = 0) :
    s.read m = ([], s) := by
  obtain ⟨inner, chunk⟩ := s
  simp only at hinner hch
  subst hinner
  have hb : (chunk.read m).1.length = 0 := by
    rw [Cursor.read_length]
    omega
  have hc2 : (chunk.read m).2 = chunk := by
    rw [Cursor.read_snd, hch]
    simp
  simp only [SyncStream.read]
  rw [if_neg (by omega)]
  simp only [hc2]

theorem SyncStream.read_nil_inv (s : SyncStream) (n : Nat) (hn : 0 < n)
    (h : (s.read n).1 = []) :
    (s.read n).2.inner = none ∧ (s.read n).2.chunk.remaining = 0 := by
  obtain ⟨inner, chunk⟩ := s
  rw [SyncStream.read] at h ⊢
  by_cases hc : (chunk.read n).1.length > 0
  · rw [if_pos hc] at h
    rw [h] at hc
    simp at hc
  · have hrem : chunk.remaining = 0 :=
      Cursor.remaining_zero_of_read_nil hn (by omega)
    have hcur : ((chunk.read n).2).remaining = 0 := by
      rw [Cursor.read_snd_remaining]
      omega
    rw [if_neg hc] at h ⊢
    cases inner with
    | none => exact ⟨rfl, hcur⟩
    | some chunks =>
      simp only at h ⊢
      obtain ⟨h1, h2⟩ := readPull_nil hn _ chunks hcur h
      exact ⟨h2, h1⟩

/-- C5 counterexample: the claim says that once the underlying stream
signals end-of-data, every subsequent read returns zero bytes.  Reading
with a zero-length buffer drains the stream to its end (`inner` becomes
`None`, i.e. the stream has signalled end-of-data), yet the last pulled
chunk stays buffered in the cursor, and the next read with a 3-byte buffer
delivers its 3 bytes. -/
theorem C5_counterexample :
    ((SyncStream.new [[1, 2, 3]]).read 0).1 = [] ∧
    ((SyncStream.new [[1, 2, 3]]).read 0).2.inner = none ∧
    (((SyncStream.new [[1, 2, 3]]).read 0).2.read 3).1 = [1, 2, 3] := by
  decide

/-- C5 (amended): each read drains unread bytes of the previous chunk
before pulling; reading the chunked source `[1,2,3],[4],[5,6,7,8]` through
a 3-byte buffer yields reads of sizes 3,1,3,1,0 delivering
`1,2,3 / 4 / 5,6,7 / 8` in order; an empty source yields a single
zero-length read; and after a zero-length read through a *non-empty*
buffer the stream is terminal: the stream slot is `None` and every
subsequent read returns zero bytes without pulling (the state is
unchanged).  (With a zero-length buffer the last pulled chunk can still be
delivered later — see the counterexample.) -/
theorem C5_stream_reader :
    (((SyncStream.new [[1, 2, 3], [4], [5, 6, 7, 8]]).read 3).1 = [1, 2, 3] ∧
     (((SyncStream.new [[1, 2, 3], [4], [5, 6, 7, 8]]).read 3).2.read 3).1 =
       [4] ∧
     ((((SyncStream.new [[1, 2, 3], [4], [5, 6, 7, 8]]).read 3).2.read
       3).2.read 3).1 = [5, 6, 7] ∧
     (((((SyncStream.new [[1, 2, 3], [4], [5, 6, 7, 8]]).read 3).2.read
       3).2.read 3).2.read 3).1 = [8] ∧
     ((((((SyncStream.new [[1, 2, 3], [4], [5, 6, 7, 8]]).read 3).2.read
       3).2.read 3).2.read 3).2.read 3).1 = []) ∧
    ((SyncStream.new []).read 3).1 = [] ∧
    (∀ (s : SyncStream) (bufLen : Nat), (s.chunk.read bufLen).1 ≠ [] →
      s.read bufLen =
        ((s.chunk.read bufLen).1, ⟨s.inner, (s.chunk.read bufLen).2⟩)) ∧
    (∀ (s : SyncStream) (n : Nat), 0 < n → (s.read n).1 = [] →
      (s.read n).2.inner = none ∧
      ∀ m, (s.read n).2.read m = ([], (s.read n).2)) := by
  refine ⟨by decide, by decide, ?_, ?_⟩
  · intro s bufLen h
    rw [SyncStream.read, if_pos (by simpa [List.length_pos] using h)]
  · intro s n hn h
    obtain ⟨hinner, hrem⟩ := SyncStream.read_nil_inv s n hn h
    exact ⟨hinner,
      fun m => SyncStream.read_terminal (s.read n).2 m hinner hrem⟩

/-- C5 witness: draining leftovers first on a cursor holding `[1,2,3]` at
position 1, and terminality after the end of a concrete exhausted
stream. -/
theorem C5_witness :
    ((⟨some [[4]], ⟨[1, 2, 3], 1⟩⟩ : SyncStream).chunk.read 2).1 ≠ [] ∧
    (⟨some [[4]], ⟨[1, 2, 3], 1⟩⟩ : SyncStream).read 2 =
      ([2, 3], ⟨some [[4]], ⟨[1, 2, 3], 3⟩⟩) ∧
    (((SyncStream.new [[9]]).read 5).2.read 5).2.read 7 =
      ([], (((SyncStream.new [[9]]).read 5).2.read 5).2) :=
  ⟨by decide,
   C5_stream_reader.2.2.1 ⟨some [[4]], ⟨[1, 2, 3], 1⟩⟩ 2 (by decide),
   (C5_stream_reader.2.2.2 ((SyncStream.new [[9]]).read 5).2 5 (by decide)
     (by decide)).2 7⟩

theorem readPull_zero (ch : Cursor) (chunks : List (List Nat)) :
    readPull 0 ch chunks =
      ([], (match chunks.getLast? with
            | none => ch
            | some c => (⟨c, 0⟩ : Cursor)), none) := by
  induction chunks generalizing ch with
  | nil => rfl
  | cons c rest ih =>
    have hlen : ((⟨c, 0⟩ : Cursor).read 0).1.length = 0 := by
      rw [Cursor.read_length]
      omega
    have hsnd : ((⟨c, 0⟩ : Cursor).read 0).2 = (⟨c, 0⟩ : Cursor) := by
      rw [Cursor.read_snd]
      simp
    simp only [readPull, hlen, gt_iff_lt, Nat.lt_irrefl, if_false, hsnd]
    rw [ih]
    cases rest with
    | nil => rfl
    | cons r rs => rfl

/-- C10 counterexample: the claim says every chunk pulled during a
zero-length read is permanently lost to all subsequent reads.  On the
stream `[1,2,3],[4]`, the zero-length read pulls and returns nothing, but a
following 3-byte read still delivers `[4]` — the bytes of the last pulled
chunk were not lost. -/
theorem C10_counterexample :
    ((SyncStream.new [[1, 2, 3], [4]]).read 0).1 = [] ∧
    (((SyncStream.new [[1, 2, 3], [4]]).read 0).2.read 3).1 = [4] := by
  decide

/-- C10 (amended): a zero-length read on a stream whose slot still holds
chunks returns zero bytes only after pulling every remaining chunk and
observing end-of-stream (the slot ends up `None`); each pulled chunk's
cursor is overwritten by the next pull, so the bytes of every chunk but the
last are lost, while the last pulled chunk remains buffered at position 0
and stays deliverable to subsequent reads (when no chunk was pulled the
cursor is untouched). -/
theorem C10_zero_length_read (d : List Nat) (p : Nat)
    (chunks : List (List Nat)) :
    (SyncStream.mk (some chunks) ⟨d, p⟩).read 0 =
      ([], ⟨none, (match chunks.getLast? with
                   | none => (⟨d, p⟩ : Cursor)
                   | some c => (⟨c, 0⟩ : Cursor))⟩) := by
  have hlen : ((⟨d, p⟩ : Cursor).read 0).1.length = 0 := by
    rw [Cursor.read_length]
    omega
  have hsnd : ((⟨d, p⟩ : Cursor).read 0).2 = (⟨d, p⟩ : Cursor) := by
    rw [Cursor.read_snd]
    simp
  simp only [SyncStream.read, hlen, gt_iff_lt, Nat.lt_irrefl, if_false, hsnd]
  rw [readPull_zero]

theorem poll_none_iff (b : SyncBody) :
    (b.poll).1 = none ↔ b.reader.remaining = 0 := by
  have hlen := Cursor.read_length b.reader 16384
  unfold SyncBody.poll
  by_cases hb : (b.reader.read 16384).1.length > 0
  · rw [if_pos hb]
    simp
    omega
  · rw [if_neg hb]
    simp
    omega

theorem drainFrom_eq_some {b : SyncBody} {c : List Nat} {b' : SyncBody}
    (hp : b.poll = (some c, b')) :
    SyncBody.drainFrom b = c :: SyncBody.drainFrom b' := by
  conv_lhs => unfold SyncBody.drainFrom
  split
  · next c2 b2 hp2 =>
      rw [hp] at hp2
      injection hp2 with h1 h2
      injection h1 with h1
      subst h1
      subst h2
      rfl
  · next x hp2 =>
      rw [hp] at hp2
      injection hp2 with h1 h2
      cases h1

theorem drainFrom_eq_none {b : SyncBody} {x : SyncBody}
    (hp : b.poll = (none, x)) : SyncBody.drainFrom b = [] := by
  conv_lhs => unfold SyncBody.drainFrom
  split
  · next c2 b2 hp2 =>
      rw [hp] at hp2
      injection hp2 with h1 h2
      cases h1
  · next x2 hp2 => rfl

theorem drainFrom_flatten (b : SyncBody) :
    (SyncBody.drainFrom b).flatten = b.reader.data.drop b.reader.pos := by
  induction b using SyncBody.drainFrom.induct with
  | case1 b c b' hp ih =>
    rw [drainFrom_eq_some hp, List.flatten_cons, ih]
    have h1 : b.poll = (some c, b') := hp
    unfold SyncBody.poll at h1
    by_cases hb : (b.reader.read 16384).1.length > 0
    · rw [if_pos hb] at h1
      injection h1 with hc hb'
      injection hc with hc
      subst hc
      subst hb'
      rw [Cursor.read_snd]
      simp only [Cursor.read, Cursor.remaining]
      rw [← List.drop_drop, List.take_append_drop]
    · rw [if_neg hb] at h1
      injection h1 with hc hb'
      cases hc
  | case2 b x hp =>
    rw [drainFrom_eq_none hp]
    have h0 : b.reader.remaining = 0 := (poll_none_iff b).mp (by rw [hp])
    rw [List.flatten_nil]
    rw [eq_comm, List.drop_eq_nil_iff]
    simp only [Cursor.remaining] at h0
    omega

/-- C7 counterexample: the claim says the adapter emits fixed-size 16 KiB
chunks until the source is exhausted; on a 3-byte source the single emitted
chunk has length 3, not 16384. -/
theorem C7_counterexample :
    (SyncBody.poll ⟨⟨[1, 2, 3], 0⟩⟩).1 = some [1, 2, 3] ∧
    ([1, 2, 3] : List Nat).length ≠ 16384 := by
  decide

/-- C7 (amended): the adapter reads into a fixed 16 KiB buffer and emits a
chunk of exactly the bytes read — `min(16 KiB, remaining)`, so full 16 KiB
chunks while at least 16 KiB remains and a shorter final chunk — signalling
end-of-stream exactly when a zero-length read is observed (the source is
exhausted); the emitted chunks concatenate to exactly the source's
remaining bytes. -/
theorem C7_sync_body :
    (∀ b : SyncBody, (b.poll).1 = none ↔ b.reader.remaining = 0) ∧
    (∀ (b : SyncBody) (c : List Nat), (b.poll).1 = some c →
      0 < c.length ∧ c.length = min 16384 b.reader.remaining) ∧
    (∀ (b : SyncBody) (c : List Nat), 16384 ≤ b.reader.remaining →
      (b.poll).1 = some c → c.length = 16384) ∧
    (∀ b : SyncBody,
      (SyncBody.drainFrom b).flatten = b.reader.data.drop b.reader.pos) := by
  have hsome : ∀ (b : SyncBody) (c : List Nat), (b.poll).1 = some c →
      0 < c.length ∧ c.length = min 16384 b.reader.remaining := by
    intro b c hp
    have hlen := Cursor.read_length b.reader 16384
    unfold SyncBody.poll at hp
    by_cases hb : (b.reader.read 16384).1.length > 0
    · rw [if_pos hb] at hp
      injection hp with hp
      subst hp
      exact ⟨hb, hlen⟩
    · rw [if_neg hb] at hp
      cases hp
  refine ⟨poll_none_iff, hsome, ?_, drainFrom_flatten⟩
  intro b c hge hp
  obtain ⟨-, hlen⟩ := hsome b c hp
  omega

/-- C7 witness: on a 2-byte source, the single chunk is non-empty with
length `min(16 KiB, 2) = 2`. -/
theorem C7_witness :
    (SyncBody.poll ⟨⟨[9, 9], 0⟩⟩).1 = some [9, 9] ∧
    0 < ([9, 9] : List Nat).length ∧
    ([9, 9] : List Nat).length =
      min 16384 (⟨⟨[9, 9], 0⟩⟩ : SyncBody).reader.remaining :=
  ⟨by decide, C7_sync_body.2.1 ⟨⟨[9, 9], 0⟩⟩ [9, 9] (by decide)⟩
